import Mathlib

/-!
Verification of the LensMark watermarking app against its specification.

The development shallowly embeds the relevant parts of the sources:
* `src/utils/exif.ts`  — EXIF tag normalization (`convertDMSToDecimal`,
  `extractExifData`),
* `src/utils/canvas.ts` — the render pipeline (`getDominantColors`,
  layout measurement, overflow fit, output dimensions, `drawLogoSequence`,
  `generateWatermark`),
* `src/types.ts`        — the `App` component's slot state and `handleDrop`.

JS numbers are embedded as exact rationals (`ℚ`), JS integer-producing
operations (`Math.floor`, `Math.round`) as `Int.floor`-based functions, JS
strings as Lean `String` (with single-character `split`/`replace` modelled at
the `List Char` level with identical semantics), and browser-provided
primitives (`ctx.measureText`, canvas pixel sampling, `parseFloat`,
`new Date()`, image/logo load outcomes) as explicit parameters.
-/

namespace LensMark

/-! ## JS string primitives used by the sources -/

/-- JS `String.prototype.split` with a single-character separator, at the
character-list level: `"a b".split(' ') = ["a","b"]`, `"".split(' ') = [""]`;
empty segments are preserved, exactly as in JS. -/
def splitCharList (sep : Char) : List Char → List (List Char)
  | [] => [[]]
  | c :: cs =>
      let r := splitCharList sep cs
      if c = sep then [] :: r
      else (c :: r.headD []) :: r.tail

/-- JS `s.split(sep)` for a one-character separator `sep`. -/
def jsSplitChar (sep : Char) (s : String) : List String :=
  (splitCharList sep s.data).map String.mk

/-- JS `s.replace(/a/g, b)` for single characters: every occurrence of `a`
becomes `b`. -/
def jsReplaceChar (a b : Char) (s : String) : String :=
  String.mk (s.data.map fun c => if c = a then b else c)

/-- JS `String(n).padStart(2, '0')` for a natural number. -/
def pad2 (n : ℕ) : String :=
  let s := toString n
  if s.length < 2 then "0" ++ s else s

/-- JS `Number.prototype.toFixed(d)` on an exact rational. ECMA-262 first
extracts the sign (a negative input keeps its `"-"` even when the magnitude
rounds to zero, e.g. `"-0.0000"`), then picks the integer `n` with
`n / 10^d` closest to the magnitude, ties to the larger `n` — i.e.
`n = ⌊|x| * 10^d + 1/2⌋` — and prints `n` with exactly `d` digits after the
decimal point, behind the sign. -/
def jsToFixed (x : ℚ) (d : ℕ) : String :=
  let sign := if x < 0 then "-" else ""
  let y := if x < 0 then -x else x
  let n : ℤ := ⌊y * (10 : ℚ) ^ d + 1/2⌋
  if d = 0 then sign ++ toString n
  else
    let s := toString n.natAbs
    let s := if s.length ≤ d then String.mk (List.replicate (d + 1 - s.length) '0') ++ s else s
    sign ++ (s.take (s.length - d)) ++ "." ++ (s.drop (s.length - d))

/-! ## src/utils/exif.ts — data model -/

/-- An ExifReader tag as used by `extractExifData`: only its `description`
string is read for the non-GPS tags. -/
structure RawTag where
  description : String
deriving DecidableEq

/-- A GPS coordinate tag: `value` is the DMS numeric array when ExifReader
provides one (`Array.isArray(tag.value)`), `description` is the printable
fallback. -/
structure GpsTag where
  value : Option (List ℚ)
  description : String
deriving DecidableEq

/-- The raw tag map: the fields `extractExifData` indexes, `none` when the
tag is absent from the file. -/
structure RawTags where
  Make : Option RawTag := none
  Model : Option RawTag := none
  LensModel : Option RawTag := none
  Lens : Option RawTag := none
  FocalLength : Option RawTag := none
  FNumber : Option RawTag := none
  ISOSpeedRatings : Option RawTag := none
  ExposureTime : Option RawTag := none
  DateTimeOriginal : Option RawTag := none
  GPSLatitude : Option GpsTag := none
  GPSLongitude : Option GpsTag := none
  GPSLatitudeRef : Option RawTag := none
  GPSLongitudeRef : Option RawTag := none

/-- src/types.ts `ExifData`. -/
structure ExifData where
  make : String
  model : String
  lens : String
  focalLength : String
  fNumber : String
  iso : String
  exposureTime : String
  dateTime : String
  gps : Option String
  lat : Option ℚ
  lon : Option ℚ
deriving DecidableEq

/-- Browser-provided context for `extractExifData`: the host `parseFloat`
(`none` embeds `NaN`) and the components of `new Date()` (`nowMonth` is the
0-based `getMonth()` value). -/
structure JsEnv where
  jsParseFloat : String → Option ℚ
  nowYear : ℕ
  nowMonth : ℕ
  nowDay : ℕ
  nowHour : ℕ
  nowMinute : ℕ

/-- JS `tags[k]?.description || fallback`: a missing tag or an empty
description string falls back. -/
def descOr (t : Option RawTag) (fallback : String) : String :=
  match t with
  | some tag => if tag.description = "" then fallback else tag.description
  | none => fallback

/-- JS `tags[k]?.description?.[0] || c`: the first character of the
description, or `c` when the tag is missing or its description is empty. -/
def refHeadChar (t : Option RawTag) (c : Char) : Char :=
  match t with
  | some tag => tag.description.data.headD c
  | none => c

/-- src/utils/exif.ts `convertDMSToDecimal` (lines 4–14). -/
def convertDMSToDecimal (dms : List ℚ) (ref : Char) : Option ℚ :=
  if dms.length < 3 then none
  else
    let degrees := dms.headD 0
    let minutes := (dms.drop 1).headD 0
    let seconds := (dms.drop 2).headD 0
    let decimal := degrees + minutes / 60 + seconds / 3600
    some (if ref = 'S' ∨ ref = 'W' then decimal * -1 else decimal)

/-- src/utils/exif.ts `extractExifData`, GPS block (lines 52–81): the
`(lat, lon, gpsString)` triple. -/
def gpsFields (env : JsEnv) (tags : RawTags) : Option ℚ × Option ℚ × Option String :=
  let latRef := refHeadChar tags.GPSLatitudeRef 'N'
  let lonRef := refHeadChar tags.GPSLongitudeRef 'E'
  match tags.GPSLatitude, tags.GPSLongitude with
  | some latTag, some lonTag =>
      let latlon : Option ℚ × Option ℚ :=
        match latTag.value, lonTag.value with
        | some lv, some ov => (convertDMSToDecimal lv latRef, convertDMSToDecimal ov lonRef)
        | _, _ => (env.jsParseFloat latTag.description, env.jsParseFloat lonTag.description)
      let gpsString : Option String :=
        match latlon.1, latlon.2 with
        | some la, some lo => some (jsToFixed la 4 ++ ", " ++ jsToFixed lo 4)
        | _, _ => some "Location Data"
      (latlon.1, latlon.2, gpsString)
  | _, _ => (none, none, none)

/-- src/utils/exif.ts `extractExifData` (lines 16–96); the resolved
`ExifReader.load` result is the `tags` argument. -/
def extractExifData (env : JsEnv) (tags : RawTags) : ExifData :=
  let make := descOr tags.Make ""
  let model := descOr tags.Model "Unknown Camera"
  let lens := descOr tags.LensModel (descOr tags.Lens "")
  let focalLength := String.mk ((descOr tags.FocalLength "").data.filter fun c => !c.isWhitespace)
  let fNumber0 := descOr tags.FNumber ""
  let fNumber := if fNumber0 ≠ "" ∧ ¬ fNumber0.startsWith "f/" then "f/" ++ fNumber0 else fNumber0
  let isoStr := descOr tags.ISOSpeedRatings ""
  let exposureTime0 := descOr tags.ExposureTime ""
  let exposureTime :=
    if exposureTime0 ≠ "" ∧ ¬ exposureTime0.endsWith "s" then exposureTime0 ++ "s" else exposureTime0
  let dateTime0 := descOr tags.DateTimeOriginal ""
  let dateTime :=
    if dateTime0 ≠ "" then
      let parts := jsSplitChar ' ' dateTime0
      if parts.length > 0 then
        jsReplaceChar ':' '.' (parts.headD "") ++ " " ++ ((parts.drop 1).headD "")
      else dateTime0
    else
      toString env.nowYear ++ "." ++ pad2 (env.nowMonth + 1) ++ "." ++ pad2 env.nowDay ++ " "
        ++ pad2 env.nowHour ++ ":" ++ pad2 env.nowMinute
  let gpsOut := gpsFields env tags
  { make := make, model := model, lens := lens, focalLength := focalLength,
    fNumber := fNumber, iso := isoStr, exposureTime := exposureTime,
    dateTime := dateTime, gps := gpsOut.2.2, lat := gpsOut.1, lon := gpsOut.2.1 }

/-- src/types.ts `App.onDrop`, line 143: the text placed in the ISO slot,
`data.iso ? ISO-prefixed : ''`. -/
def appIsoText (data : ExifData) : String :=
  if data.iso ≠ "" then "ISO" ++ data.iso else ""

/-! ## Helper lemmas about the split model -/

theorem splitCharList_of_not_mem {sep : Char} {l : List Char} (h : sep ∉ l) :
    splitCharList sep l = [l] := by
  induction l with
  | nil => rfl
  | cons c cs ih =>
      have hc : c ≠ sep := fun hcs => h (hcs ▸ List.mem_cons_self c cs)
      have hcs : sep ∉ cs := fun hm => h (List.mem_cons_of_mem _ hm)
      simp [splitCharList, ih hcs, hc]

theorem splitCharList_append {sep : Char} {l1 l2 : List Char} (h : sep ∉ l1) :
    splitCharList sep (l1 ++ sep :: l2) = l1 :: splitCharList sep l2 := by
  induction l1 with
  | nil => simp [splitCharList]
  | cons c cs ih =>
      have hc : c ≠ sep := fun hcs => h (hcs ▸ List.mem_cons_self c cs)
      have hcs : sep ∉ cs := fun hm => h (List.mem_cons_of_mem _ hm)
      simp [splitCharList, ih hcs, hc]

theorem splitCharList_ne_nil (sep : Char) (l : List Char) :
    splitCharList sep l ≠ [] := by
  cases l with
  | nil => simp [splitCharList]
  | cons c cs =>
      by_cases hc : c = sep <;> simp [splitCharList, hc]

theorem data_append_sep (D T : String) :
    (D ++ " " ++ T).data = D.data ++ ' ' :: T.data := by
  rw [String.data_append, String.data_append]
  have h : (" " : String).data = [' '] := rfl
  rw [h, List.append_assoc]
  rfl

/-- `jsSplitChar` on a two-part string whose parts are space-free. -/
theorem jsSplitChar_two_parts (D T : String) (hD : ' ' ∉ D.data) (hT : ' ' ∉ T.data) :
    jsSplitChar ' ' (D ++ " " ++ T) = [D, T] := by
  unfold jsSplitChar
  rw [data_append_sep, splitCharList_append hD, splitCharList_of_not_mem hT]
  simp

/-! ## Claim C3 — date formatting -/

/-- Sample tags for C3: a standard EXIF `DateTimeOriginal`. -/
def tagsC3 : RawTags := { DateTimeOriginal := some ⟨"2024:05:01 10:30:00"⟩ }

/-- Neutral browser environment shared by the concrete evaluations. -/
def envW : JsEnv :=
  { jsParseFloat := fun _ => none, nowYear := 2024, nowMonth := 4, nowDay := 1,
    nowHour := 10, nowMinute := 30 }

/-- C3 counterexample: on the raw description `"2024:05:01 10:30:00"` the
code keeps the seconds — the result is `"2024.05.01 10:30:00"`, not the
claimed `"2024.05.01 10:30"`. -/
theorem dateTime_seconds_kept_cex :
    (extractExifData envW tagsC3).dateTime = "2024.05.01 10:30:00" ∧
    (extractExifData envW tagsC3).dateTime ≠ "2024.05.01 10:30" := by
  constructor <;> decide

/-- C3 (amended): for every raw tag map whose `DateTimeOriginal` description
has the form `D ++ " " ++ T` with space-free date and time parts (in
particular `"YYYY:MM:DD HH:MM:SS"`), `extractExifData` returns
`dateTime = D` with its colons turned into dots, a space, and the time part
`T` unchanged — the seconds are kept, not dropped. -/
theorem dateTime_format_amended (env : JsEnv) (tags : RawTags) (D T : String)
    (h : tags.DateTimeOriginal = some ⟨D ++ " " ++ T⟩)
    (hD : ' ' ∉ D.data) (hT : ' ' ∉ T.data) :
    (extractExifData env tags).dateTime = jsReplaceChar ':' '.' D ++ " " ++ T := by
  have hne : (D ++ " " ++ T) ≠ "" := by
    intro hfalse
    have : (D ++ " " ++ T).data = [] := by rw [hfalse]
    rw [data_append_sep] at this
    exact absurd this (by simp)
  have hsplit := jsSplitChar_two_parts D T hD hT
  simp only [extractExifData, descOr, h]
  simp [hne, hsplit]

/-- Sample tags for the C3 amended witness. -/
def tagsC3w : RawTags := { DateTimeOriginal := some ⟨"2025:12:31 23:59:58"⟩ }

/-- Witness for the amended C3 theorem at a concrete input. -/
theorem dateTime_format_amended_witness :
    (extractExifData envW tagsC3w).dateTime = "2025.12.31 23:59:58" := by
  rw [dateTime_format_amended envW tagsC3w "2025:12:31" "23:59:58" rfl (by decide) (by decide)]
  rfl

/-! ## Claim C4 — GPS conversion and label format -/

/-- Sample tags for C4: DMS `(40,44,54.36)` north, `(73,59,8)` west. -/
def tagsC4 : RawTags :=
  { GPSLatitude := some ⟨some [40, 44, 5436/100], "40° 44' 54.36\""⟩,
    GPSLongitude := some ⟨some [73, 59, 8], "73° 59' 8\""⟩,
    GPSLatitudeRef := some ⟨"North latitude"⟩,
    GPSLongitudeRef := some ⟨"West longitude"⟩ }

/-- C4 counterexample: the code formats each coordinate with `toFixed(4)` —
four decimal places joined by a comma and a space — not two decimals: the
label is `"40.7484, -73.9856"`, not `"40.75, -73.99"`. -/
theorem gps_label_cex :
    (extractExifData envW tagsC4).gps = some "40.7484, -73.9856" ∧
    (extractExifData envW tagsC4).gps ≠ some "40.75, -73.99" := by
  refine ⟨?_, ?_⟩ <;> exact of_decide_eq_true (by with_unfolding_all rfl)

/-- C4 (amended): with DMS arrays and hemisphere references present,
`extractExifData` converts each coordinate by
`degrees + minutes/60 + seconds/3600`, multiplied by `-1` for `S`/`W`
references, and sets the gps label to the two decimal values each formatted
with **four** decimals (`toFixed(4)`), joined by a comma and a space. -/
theorem gps_decimal_and_label_amended (env : JsEnv) (tags : RawTags)
    (lv ov : List ℚ) (dla dlo : String)
    (hla : tags.GPSLatitude = some ⟨some lv, dla⟩)
    (hlo : tags.GPSLongitude = some ⟨some ov, dlo⟩)
    (h3a : 3 ≤ lv.length) (h3o : 3 ≤ ov.length) :
    (extractExifData env tags).lat =
      some (if refHeadChar tags.GPSLatitudeRef 'N' = 'S' ∨ refHeadChar tags.GPSLatitudeRef 'N' = 'W'
            then (lv.headD 0 + (lv.drop 1).headD 0 / 60 + (lv.drop 2).headD 0 / 3600) * -1
            else lv.headD 0 + (lv.drop 1).headD 0 / 60 + (lv.drop 2).headD 0 / 3600) ∧
    (extractExifData env tags).lon =
      some (if refHeadChar tags.GPSLongitudeRef 'E' = 'S' ∨ refHeadChar tags.GPSLongitudeRef 'E' = 'W'
            then (ov.headD 0 + (ov.drop 1).headD 0 / 60 + (ov.drop 2).headD 0 / 3600) * -1
            else ov.headD 0 + (ov.drop 1).headD 0 / 60 + (ov.drop 2).headD 0 / 3600) ∧
    ∀ la lo, (extractExifData env tags).lat = some la → (extractExifData env tags).lon = some lo →
      (extractExifData env tags).gps = some (jsToFixed la 4 ++ ", " ++ jsToFixed lo 4) := by
  have hlen_a : ¬ lv.length < 3 := not_lt.mpr h3a
  have hlen_o : ¬ ov.length < 3 := not_lt.mpr h3o
  have hca : convertDMSToDecimal lv (refHeadChar tags.GPSLatitudeRef 'N') =
      some (if refHeadChar tags.GPSLatitudeRef 'N' = 'S' ∨ refHeadChar tags.GPSLatitudeRef 'N' = 'W'
            then (lv.headD 0 + (lv.drop 1).headD 0 / 60 + (lv.drop 2).headD 0 / 3600) * -1
            else lv.headD 0 + (lv.drop 1).headD 0 / 60 + (lv.drop 2).headD 0 / 3600) := by
    simp only [convertDMSToDecimal, hlen_a, if_false]
  have hco : convertDMSToDecimal ov (refHeadChar tags.GPSLongitudeRef 'E') =
      some (if refHeadChar tags.GPSLongitudeRef 'E' = 'S' ∨ refHeadChar tags.GPSLongitudeRef 'E' = 'W'
            then (ov.headD 0 + (ov.drop 1).headD 0 / 60 + (ov.drop 2).headD 0 / 3600) * -1
            else ov.headD 0 + (ov.drop 1).headD 0 / 60 + (ov.drop 2).headD 0 / 3600) := by
    simp only [convertDMSToDecimal, hlen_o, if_false]
  have hgps : gpsFields env tags =
      (convertDMSToDecimal lv (refHeadChar tags.GPSLatitudeRef 'N'),
       convertDMSToDecimal ov (refHeadChar tags.GPSLongitudeRef 'E'),
       match convertDMSToDecimal lv (refHeadChar tags.GPSLatitudeRef 'N'),
             convertDMSToDecimal ov (refHeadChar tags.GPSLongitudeRef 'E') with
       | some la, some lo => some (jsToFixed la 4 ++ ", " ++ jsToFixed lo 4)
       | _, _ => some "Location Data") := by
    simp only [gpsFields, hla, hlo]
  rw [hca, hco] at hgps
  have h1 : (extractExifData env tags).lat = (gpsFields env tags).1 := rfl
  have h2 : (extractExifData env tags).lon = (gpsFields env tags).2.1 := rfl
  have h3 : (extractExifData env tags).gps = (gpsFields env tags).2.2 := rfl
  rw [hgps] at h1 h2 h3
  refine ⟨h1, h2, ?_⟩
  intro la lo hlaeq hloeq
  have ea := Option.some.inj (hlaeq.symm.trans h1)
  have eb := Option.some.inj (hloeq.symm.trans h2)
  rw [← ea, ← eb] at h3
  exact h3

/-- Sample tags for the C4 amended witness: DMS `(10,30,0)` south,
`(20,15,36)` east. -/
def tagsC4w : RawTags :=
  { GPSLatitude := some ⟨some [10, 30, 0], "10° 30' 0\""⟩,
    GPSLongitude := some ⟨some [20, 15, 36], "20° 15' 36\""⟩,
    GPSLatitudeRef := some ⟨"South latitude"⟩,
    GPSLongitudeRef := some ⟨"East longitude"⟩ }

set_option maxRecDepth 8000 in
/-- Witness for the amended C4 theorem at a concrete input. -/
theorem gps_decimal_and_label_amended_witness :
    (extractExifData envW tagsC4w).lat = some (-10.5) ∧
    (extractExifData envW tagsC4w).gps = some "-10.5000, 20.2600" := by
  have h := gps_decimal_and_label_amended envW tagsC4w [10, 30, 0] [20, 15, 36]
    "10° 30' 0\"" "20° 15' 36\"" rfl rfl (by decide) (by decide)
  have hla : (extractExifData envW tagsC4w).lat = some (-10.5) :=
    of_decide_eq_true (by with_unfolding_all rfl)
  have hlo : (extractExifData envW tagsC4w).lon = some (20.26) :=
    of_decide_eq_true (by with_unfolding_all rfl)
  refine ⟨hla, ?_⟩
  rw [h.2.2 (-10.5) (20.26) hla hlo]
  exact of_decide_eq_true (by with_unfolding_all rfl)

/-! ## Claim C8 — ISO display prefix -/

/-- C8: a non-empty `ISOSpeedRatings` description is displayed with the
literal `"ISO"` prefix by `App.onDrop`; with no ISO tag the displayed text is
empty. -/
theorem iso_display (env : JsEnv) (tags : RawTags) (v : String) :
    (tags.ISOSpeedRatings = some ⟨v⟩ → v ≠ "" →
      appIsoText (extractExifData env tags) = "ISO" ++ v) ∧
    (tags.ISOSpeedRatings = none → appIsoText (extractExifData env tags) = "") := by
  constructor
  · intro hv hne
    simp [appIsoText, extractExifData, descOr, hv, hne]
  · intro hv
    simp [appIsoText, extractExifData, descOr, hv]

/-- Sample tags for the C8 witness. -/
def tagsC8 : RawTags := { ISOSpeedRatings := some ⟨"400"⟩ }

/-- Witness for C8: `"400"` becomes `"ISO400"`, and a tag map with no ISO tag
displays the empty string. -/
theorem iso_display_witness :
    appIsoText (extractExifData envW tagsC8) = "ISO400" ∧
    appIsoText (extractExifData envW { }) = "" :=
  ⟨(iso_display envW tagsC8 "400").1 rfl (by decide),
   (iso_display envW { } "").2 rfl⟩

/-! ## Claim C10 — f-number / exposure-time normalization idempotence -/

/-- C10: a non-empty f-number description already starting with `"f/"` and a
non-empty exposure-time description already ending with `"s"` pass through
`extractExifData` unchanged. -/
theorem fnumber_exposure_idempotent (env : JsEnv) (tags : RawTags) (fv ev : String)
    (hf : tags.FNumber = some ⟨fv⟩) (hfne : fv ≠ "") (hfp : fv.startsWith "f/" = true)
    (he : tags.ExposureTime = some ⟨ev⟩) (hene : ev ≠ "") (hes : ev.endsWith "s" = true) :
    (extractExifData env tags).fNumber = fv ∧
    (extractExifData env tags).exposureTime = ev := by
  constructor
  · simp [extractExifData, descOr, hf, hfne, hfp]
  · simp [extractExifData, descOr, he, hene, hes]

/-- Sample tags for the C10 witness. -/
def tagsC10 : RawTags := { FNumber := some ⟨"f/1.8"⟩, ExposureTime := some ⟨"1/125s"⟩ }

/-- Witness for C10: `"f/1.8"` and `"1/125s"` are unchanged. -/
theorem fnumber_exposure_idempotent_witness :
    (extractExifData envW tagsC10).fNumber = "f/1.8" ∧
    (extractExifData envW tagsC10).exposureTime = "1/125s" :=
  fnumber_exposure_idempotent envW tagsC10 "f/1.8" "1/125s" rfl (by decide)
    (of_decide_eq_true (by with_unfolding_all rfl))
    rfl (by decide) (of_decide_eq_true (by with_unfolding_all rfl))

/-! ## JS array sort

`Array.prototype.sort(cmp)` with a consistent comparator is a stable sort
(ECMA-262); it is embedded as a stable insertion sort, `le x y` meaning
`cmp(x, y) <= 0` ("x may stay before y"). -/

/-- Insert `a` into `l`, before the first element `b` with `le a b`. -/
def jsSortInsert (le : α → α → Bool) (a : α) : List α → List α
  | [] => [a]
  | b :: bs => if le a b then a :: b :: bs else b :: jsSortInsert le a bs

/-- Stable sort by the "may stay before" relation `le`. -/
def jsStableSort (le : α → α → Bool) : List α → List α
  | [] => []
  | a :: as => jsSortInsert le a (jsStableSort le as)

theorem jsSortInsert_perm (le : α → α → Bool) (a : α) (l : List α) :
    List.Perm (jsSortInsert le a l) (a :: l) := by
  induction l with
  | nil => exact List.Perm.refl _
  | cons b bs ih =>
      unfold jsSortInsert
      by_cases h : le a b
      · simp [h]
      · simp only [h, if_false]
        exact (ih.cons b).trans (List.Perm.swap a b bs)

theorem jsStableSort_perm (le : α → α → Bool) (l : List α) :
    List.Perm (jsStableSort le l) l := by
  induction l with
  | nil => exact List.Perm.refl _
  | cons a as ih =>
      exact (jsSortInsert_perm le a (jsStableSort le as)).trans (ih.cons a)

theorem mem_jsStableSort (le : α → α → Bool) (l : List α) (x : α) :
    x ∈ jsStableSort le l ↔ x ∈ l :=
  (jsStableSort_perm le l).mem_iff

theorem jsStableSort_nodup (le : α → α → Bool) {l : List α} (h : l.Nodup) :
    (jsStableSort le l).Nodup :=
  ((jsStableSort_perm le l).nodup_iff).mpr h

/-! ## src/utils/canvas.ts — dominant color analysis -/

/-- One sampled pixel's RGB bytes (`data[i]`, `data[i+1]`, `data[i+2]` of the
`getImageData` byte array). -/
structure Pixel where
  r : ℕ
  g : ℕ
  b : ℕ
deriving DecidableEq

/-- A `colorMap` accumulator entry: pixel count and per-channel sums. -/
structure BucketAcc where
  count : ℕ
  r : ℕ
  g : ℕ
  b : ℕ
deriving DecidableEq

/-- JS `Math.round` on an exact rational: round half toward `+∞`. -/
def jsRound (q : ℚ) : ℤ := ⌊q + 1/2⌋

/-- One step of the `colorMap` accumulation loop (canvas.ts lines 22–35).
A JS object whose keys are the quantized-triple strings enumerates them in
first-insertion order, so the map is an association list: a new key is
appended, an existing one updated in place. `quantizationFactor` is 32. -/
def addPixel (mp : List ((ℕ × ℕ × ℕ) × BucketAcc)) (p : Pixel) :
    List ((ℕ × ℕ × ℕ) × BucketAcc) :=
  let key := (p.r / 32, p.g / 32, p.b / 32)
  if (mp.lookup key).isSome then
    mp.map fun kv =>
      if kv.1 = key then (kv.1, ⟨kv.2.count + 1, kv.2.r + p.r, kv.2.g + p.g, kv.2.b + p.b⟩)
      else kv
  else
    mp ++ [(key, ⟨1, p.r, p.g, p.b⟩)]

/-- An averaged bucket (canvas.ts lines 37–43). -/
structure Bucket where
  count : ℕ
  r : ℤ
  g : ℤ
  b : ℤ
  hex : String
deriving DecidableEq

/-- Average a `colorMap` bucket (lines 37–43): channel sums divided by the
count and `Math.round`ed, plus the `rgb(r, g, b)` display string. -/
def mkBucket (acc : BucketAcc) : Bucket :=
  { count := acc.count,
    r := jsRound ((acc.r : ℚ) / acc.count),
    g := jsRound ((acc.g : ℚ) / acc.count),
    b := jsRound ((acc.b : ℚ) / acc.count),
    hex := "rgb(" ++ toString (jsRound ((acc.r : ℚ) / acc.count)) ++ ", "
        ++ toString (jsRound ((acc.g : ℚ) / acc.count)) ++ ", "
        ++ toString (jsRound ((acc.b : ℚ) / acc.count)) ++ ")" }

/-- The bucket list of `getDominantColors` (lines 19–45): accumulate every
pixel, average, and sort by descending count (`(a, b) => b.count - a.count`). -/
def colorBuckets (data : List Pixel) : List Bucket :=
  jsStableSort (fun a b => b.count ≤ a.count)
    ((data.foldl addPixel []).map fun kv => mkBucket kv.2)

/-- Squared Euclidean RGB distance between two buckets. The source compares
`Math.sqrt(distSq) > 60`, which for nonnegative radicands is equivalent to
`distSq > 3600`. -/
def distSq (a b : Bucket) : ℤ :=
  (a.r - b.r) ^ 2 + (a.g - b.g) ^ 2 + (a.b - b.b) ^ 2

/-- src/utils/canvas.ts `getDominantColors` (lines 8–66) as a function of the
sampled pixel band (the browser canvas down-sampling supplies `data`):
returns the `(dominant, secondary)` color strings. The scan at lines 51–58
replaces `secondary` by the first later bucket at distance above 60; the
line 60–63 fallback fires exactly when no such bucket exists. -/
def getDominantColors (data : List Pixel) : String × String :=
  match colorBuckets data with
  | [] => ("#ffffff", "#000000")
  | dominant :: rest =>
      match rest.find? (fun b => distSq b dominant > 3600) with
      | some sec => (dominant.hex, sec.hex)
      | none =>
          let brightness : ℚ :=
            ((dominant.r * 299 + dominant.g * 587 + dominant.b * 114 : ℤ) : ℚ) / 1000
          if brightness > 128 then (dominant.hex, "#000000")
          else (dominant.hex, "#ffffff")

/-! ## Claim C6 — secondary color fallback -/

/-- C6 counterexample: a band whose single bucket averages to
`(128, 128, 128)` has perceptual brightness exactly `128`; the claim says the
fallback is black there, but the code's strict `brightness > 128` test picks
pure white. -/
theorem dominant_fallback_at_128_cex :
    getDominantColors [⟨128, 128, 128⟩] = ("rgb(128, 128, 128)", "#ffffff") ∧
    ("#ffffff" : String) ≠ "#000000" := by
  refine ⟨?_, ?_⟩ <;> exact of_decide_eq_true (by with_unfolding_all rfl)

/-- C6 (amended): for every pixel band in which no bucket after the top one
lies at Euclidean RGB distance greater than 60 from the dominant bucket, the
secondary color falls back to pure black when the dominant color's perceptual
brightness `(299·R + 587·G + 114·B)/1000` is **strictly greater** than 128,
and to pure white otherwise; in particular, at brightness exactly 128 the
fallback is white. -/
theorem dominant_fallback_brightness (data : List Pixel) (dominant : Bucket)
    (rest : List Bucket) (hb : colorBuckets data = dominant :: rest)
    (hnone : ∀ b ∈ rest, distSq b dominant ≤ 3600) :
    (getDominantColors data).2 =
      if ((dominant.r * 299 + dominant.g * 587 + dominant.b * 114 : ℤ) : ℚ) / 1000 > 128
      then "#000000" else "#ffffff" := by
  have hfind : rest.find? (fun b => distSq b dominant > 3600) = none :=
    List.find?_eq_none.mpr fun b hbm => by
      simp only [decide_eq_true_eq]
      exact not_lt.mpr (hnone b hbm)
  simp only [getDominantColors, hb, hfind]
  split_ifs <;> rfl

/-- Witness for the amended C6 theorem: an all-white band (brightness 255)
falls back to pure black. -/
theorem dominant_fallback_brightness_witness :
    (getDominantColors [⟨255, 255, 255⟩]).2 = "#000000" := by
  have h := dominant_fallback_brightness [⟨255, 255, 255⟩]
    ⟨1, 255, 255, 255, "rgb(255, 255, 255)"⟩ []
    (of_decide_eq_true (by with_unfolding_all rfl)) (by simp)
  rw [h]
  exact of_decide_eq_true (by with_unfolding_all rfl)

/-! ## src/utils/canvas.ts — layout model -/

/-- src/types.ts `Side`. -/
inductive Side
  | left
  | right
  | off
deriving DecidableEq, Fintype

/-- src/types.ts `LogoPosition`. -/
inductive LogoPosition
  | left
  | right
deriving DecidableEq, Fintype

/-- src/types.ts `BannerStyle`. -/
inductive BannerStyle
  | black
  | white
  | blur
  | adaptive
deriving DecidableEq, Fintype

/-- The eight fixed watermark slots of `settings.elements`. -/
inductive SlotKey
  | model
  | lens
  | focalLength
  | fNumber
  | iso
  | exposureTime
  | date
  | gps
deriving DecidableEq, Fintype

/-- src/types.ts `WatermarkElement` (the display-only `id`/`label` strings
are omitted; the key identifies the slot). -/
structure WatermarkElement where
  text : String
  side : Side
  line : ℕ
  order : ℤ
deriving DecidableEq

/-- The slot keys in the insertion order of the `settings.elements` object
literal (src/types.ts lines 96–105); `Object.values`/`Object.entries`
enumerate them in this order. -/
def allKeys : List SlotKey :=
  [.model, .lens, .focalLength, .fNumber, .iso, .exposureTime, .date, .gps]

/-- The `WatermarkSettings` fields the render pipeline reads (the logo
source selection fields are subsumed by the explicit logo-load outcome). -/
structure WatermarkSettings where
  elements : SlotKey → WatermarkElement
  bannerStyle : BannerStyle
  logoPosition : LogoPosition
  useAdaptiveTextColor : Bool

/-- A canvas `ctx.font` state; every font the code assigns has the shape
`[bold ]<size>px Inter, sans-serif`. -/
structure CtxFont where
  bold : Bool
  size : ℚ
deriving DecidableEq

/-- Embedding of `ctx.measureText(text).width` as a function of the current
`ctx.font`; the browser's text metrics are a parameter of the model. -/
abbrev MeasureFn := CtxFont → String → ℚ

/-- canvas.ts line 5 `SEPARATOR_CHAR`. -/
def SEPARATOR_CHAR : String := "|"

/-- The natural dimensions of a loaded logo image. -/
structure LogoImg where
  naturalW : ℕ
  naturalH : ℕ
deriving DecidableEq

/-- canvas.ts `measureLine` (lines 165–175): the measured line width and the
`ctx.font` left behind (`ctx.font` is assigned only when `items` is
non-empty; the width sums the non-empty texts with a `2.5×` separator-width
gap between consecutive ones). -/
def measureLine (m : MeasureFn) (items : List WatermarkElement) (fontSize : ℚ)
    (isBold : Bool) (f : CtxFont) : ℚ × CtxFont :=
  if items.isEmpty then (0, f)
  else
    let font : CtxFont := ⟨isBold, fontSize⟩
    let gap := m font SEPARATOR_CHAR * 2.5
    let texts := (items.filter fun i => i.text ≠ "").map fun i => i.text
    ((texts.map (m font)).sum + gap * ((texts.length - 1 : ℕ) : ℚ), font)

/-- An element list of one (side, line) cell, sorted by `order`
(canvas.ts lines 160–163, comparator `(a, b) => a.order - b.order`). -/
def lineElems (els : SlotKey → WatermarkElement) (s : Side) (l : ℕ) : List WatermarkElement :=
  jsStableSort (fun a b => a.order ≤ b.order)
    ((allKeys.map els).filter fun e => e.side = s ∧ e.line = l)

/-- The mutable sizing values of `processRender`: banner height, the two
font sizes, padding, and the logo box. -/
structure LayoutVals where
  bannerH : ℚ
  mainFontSize : ℚ
  subFontSize : ℚ
  padding : ℚ
  logoH : ℚ
  logoW : ℚ
  logoRealH : ℚ
deriving DecidableEq

/-- The per-render quantities the measurement pass reads but the fit pass
does not change: image width, settings, and the `ctx.font` state on entry. -/
structure MeasureCtx where
  w : ℕ
  settings : WatermarkSettings
  f0 : CtxFont

/-- Nominal sizing (canvas.ts lines 122–127) and the logo box
(lines 144–156): `bannerH = 0.12·min(w,h)`, floored font sizes, padding,
aspect-preserving logo width capped at `2.5·bannerH`. -/
def nominalVals (w h : ℕ) (logoFailed : Bool) (logo : Option LogoImg) : LayoutVals :=
  let refSize : ℚ := min (w : ℚ) (h : ℚ)
  let bannerH := refSize * 0.12
  let mainFontSize : ℚ := (⌊bannerH * 0.24⌋ : ℤ)
  let subFontSize : ℚ := (⌊bannerH * 0.20⌋ : ℤ)
  let padding := bannerH * 0.35
  let logoH := bannerH * 0.38
  let logoWH : ℚ × ℚ :=
    match logo with
    | some li =>
        if ¬ logoFailed ∧ li.naturalW ≠ 0 ∧ li.naturalH ≠ 0 then
          let aspect : ℚ := (li.naturalW : ℚ) / (li.naturalH : ℚ)
          let lw := logoH * aspect
          let maxLogoW := bannerH * 2.5
          if lw > maxLogoW then (maxLogoW, logoH * (maxLogoW / lw))
          else (lw, logoH)
        else (logoH, logoH)
    | none => (logoH, logoH)
  { bannerH := bannerH, mainFontSize := mainFontSize, subFontSize := subFontSize,
    padding := padding, logoH := logoH, logoW := logoWH.1, logoRealH := logoWH.2 }

/-- Measurement pass of `processRender` (canvas.ts lines 158–197): measure
the four text lines threading `ctx.font`, add the logo block
(`logoW + 0.2·bannerH`) and, when the adjacent side has any text width, one
separator gap measured at the current font, on the configured side; the
total is `totalLeftW + totalRightW + 2·padding + 0.5·bannerH`. -/
def totalContentWidth (m : MeasureFn) (c : MeasureCtx) (v : LayoutVals) : ℚ :=
  let leftL1 := lineElems c.settings.elements .left 1
  let leftL2 := lineElems c.settings.elements .left 2
  let rightL1 := lineElems c.settings.elements .right 1
  let rightL2 := lineElems c.settings.elements .right 2
  let r1 := measureLine m leftL1 v.mainFontSize true c.f0
  let r2 := measureLine m leftL2 v.subFontSize false r1.2
  let r3 := measureLine m rightL1 v.mainFontSize true r2.2
  let r4 := measureLine m rightL2 v.subFontSize false r3.2
  let logoSpace := v.logoW + v.bannerH * 0.2
  let sepW := m r4.2 SEPARATOR_CHAR * 2.5
  let totalLeftW :=
    if c.settings.logoPosition = .left then
      max r1.1 r2.1 + logoSpace + (if max r1.1 r2.1 > 0 then sepW else 0)
    else max r1.1 r2.1
  let totalRightW :=
    if c.settings.logoPosition = .right then
      max r3.1 r4.1 + logoSpace + (if max r3.1 r4.1 > 0 then sepW else 0)
    else max r3.1 r4.1
  totalLeftW + totalRightW + v.padding * 2 + v.bannerH * 0.5

/-- Overflow fit (canvas.ts lines 197–220): when the measured total exceeds
the image width, every sizing value is multiplied by
`safeScale = max(0.6, w / total)` (the line 212–219 branches perform the
same two multiplications in either arm). -/
def fitVals (m : MeasureFn) (c : MeasureCtx) (v : LayoutVals) : LayoutVals :=
  let total := totalContentWidth m c v
  if total > (c.w : ℚ) then
    let scale := (c.w : ℚ) / total
    let safeScale := max 0.6 scale
    { bannerH := v.bannerH * safeScale,
      mainFontSize := v.mainFontSize * safeScale,
      subFontSize := v.subFontSize * safeScale,
      padding := v.padding * safeScale,
      logoH := v.logoH * safeScale,
      logoW := v.logoW * safeScale,
      logoRealH := v.logoRealH * safeScale }
  else v

/-- Uniform scaling of all sizing values by a factor (the claims' "multiply
all sizing fields by the same factor"). -/
def scaleVals (s : ℚ) (v : LayoutVals) : LayoutVals :=
  { bannerH := v.bannerH * s, mainFontSize := v.mainFontSize * s,
    subFontSize := v.subFontSize * s, padding := v.padding * s,
    logoH := v.logoH * s, logoW := v.logoW * s, logoRealH := v.logoRealH * s }

/-! ## Claim C1 — uniform overflow scaling -/

/-- C1: for every render, when the measured total content width
(`left + right + 2·padding + 0.5·bannerH`) exceeds the image width, the fit
pass multiplies `bannerH`, `mainFontSize`, `subFontSize`, `padding`, `logoH`,
`logoW` (and `logoRealH`) all by the same factor `max 0.6 (w / total)`;
otherwise it leaves every sizing value unchanged. -/
theorem overflow_scaling (m : MeasureFn) (c : MeasureCtx) (hh : ℕ) (lf : Bool)
    (lg : Option LogoImg) :
    fitVals m c (nominalVals c.w hh lf lg) =
      if totalContentWidth m c (nominalVals c.w hh lf lg) > (c.w : ℚ) then
        scaleVals (max 0.6 ((c.w : ℚ) / totalContentWidth m c (nominalVals c.w hh lf lg)))
          (nominalVals c.w hh lf lg)
      else nominalVals c.w hh lf lg := by
  simp only [fitVals, scaleVals]

/-! ## src/utils/canvas.ts — drawing phase (text color, logo, output) -/

/-- The maximal runs of consecutive decimal digits of a character list
(JS `str.match(/\d+/g)`, `[]` for a null match). -/
def digitRuns : List Char → List (List Char)
  | [] => []
  | c :: cs =>
      let r := digitRuns cs
      if c.isDigit then
        match cs with
        | d :: _ => if d.isDigit then (c :: r.headD []) :: r.tail else [c] :: r
        | [] => [[c]]
      else r

/-- JS `parseInt` on a non-empty all-digit run. -/
def parseDigits (run : List Char) : ℕ :=
  run.foldl (fun n c => n * 10 + (c.toNat - 48)) 0

/-- src/utils/canvas.ts `getBrightness` (lines 68–75): extract the decimal
digit runs of the color string (`match(/\d+/g)`); a null match (no digits,
e.g. `'#ffffff'`) returns 255; fewer than three runs means
`parseInt(undefined)`, i.e. `NaN`, embedded as `none`. -/
def getBrightness (rgbStr : String) : Option ℚ :=
  let runs := digitRuns rgbStr.data
  if runs.isEmpty then some 255
  else if 3 ≤ runs.length then
    some (((parseDigits (runs.headD []) * 299 + parseDigits ((runs.drop 1).headD []) * 587
        + parseDigits ((runs.drop 2).headD []) * 114 : ℕ) : ℚ) / 1000)
  else none

/-- The browser-side pixel sampling behind `getDominantColors(img, y, h)`:
the band's down-sampled pixels as a function of `(y, h)`. -/
abbrev Sampler := ℚ → ℚ → List Pixel

/-- JS `b >= x` where `b` may be `NaN` (`none`): comparisons with `NaN` are
false. -/
def jsGe (a : Option ℚ) (x : ℚ) : Bool :=
  match a with
  | some q => x ≤ q
  | none => false

/-- The `textColor` selected by the drawing phase (canvas.ts lines 233–304)
for each banner style (shadow and secondary-color settings omitted: the logo
claims only read `textColor`). -/
def renderTextColor (sampler : Sampler) (st : WatermarkSettings) (imgH : ℚ)
    (bannerH : ℚ) : String :=
  match st.bannerStyle with
  | .adaptive =>
      let colors := getDominantColors (sampler (imgH - imgH * 0.15) (imgH * 0.15))
      if st.useAdaptiveTextColor then colors.2
      else if jsGe (getBrightness colors.1) 128 then "#000000" else "#ffffff"
  | .black => "#ffffff"
  | .white => "#000000"
  | .blur =>
      let colors := getDominantColors (sampler (imgH - bannerH) bannerH)
      if jsGe (getBrightness colors.1) 160 then "#000000" else "#ffffff"

/-- Logo drawing direction. -/
inductive Dir
  | ltr
  | rtl
deriving DecidableEq

/-- The canvas operations `drawLogoSequence` issues. -/
inductive DrawCmd
  | setFillStyle (color : String)
  | fillRoundRect (x y w h r : ℚ)
  | setFilter (f : String)
  | drawImage (x y w h : ℚ)
deriving DecidableEq

/-- `roundRect` (canvas.ts lines 77–87) clamps the corner radius to half the
box sides before tracing the path. -/
def roundRectRadius (w h r : ℚ) : ℚ :=
  let r1 := if w < 2 * r then w / 2 else r
  if h < 2 * r1 then h / 2 else r1

/-- src/utils/canvas.ts `drawLogoSequence` (lines 381–396): the draw
commands issued and the returned `logoW`. On logo failure a rounded
rectangle in the text color fills the logo box; otherwise the logo image is
drawn, behind a `brightness(0) invert(1)` filter when the text color is
white and the logo is not a custom fallback, with the filter reset after. -/
def drawLogoSequence (x : ℚ) (dir : Dir) (logoFailed : Bool) (textColor : String)
    (isFallback : Bool) (logoW logoRealH centerY : ℚ) : List DrawCmd × ℚ :=
  let drawX := if dir = .ltr then x else x - logoW
  if logoFailed then
    let r := min logoW logoRealH * 0.2
    ([.setFillStyle textColor,
      .fillRoundRect drawX (centerY - logoRealH / 2) logoW logoRealH
        (roundRectRadius logoW logoRealH r)],
     logoW)
  else
    ((if textColor = "#ffffff" ∧ ¬ isFallback
      then [DrawCmd.setFilter "brightness(0) invert(1)"] else []) ++
      [.drawImage drawX (centerY - logoRealH / 2) logoW logoRealH, .setFilter "none"],
     logoW)

/-- The render output the claims concern: the canvas dimensions set at
lines 223–227 and the logo draw commands. -/
structure RenderOutput where
  width : ℚ
  height : ℚ
  logoDraw : List DrawCmd
deriving DecidableEq

/-- The non-empty texts of a line, in draw order (the `.filter(e => e.text)`
of the drawing phase). -/
def textsOf (l : List WatermarkElement) : List String :=
  (l.filter fun e => e.text ≠ "").map fun e => e.text

/-- Width of a drawn sequence: text widths at one font plus a fixed gap
between consecutive items (the `maxTextW` loops at canvas.ts lines 429–446). -/
def seqWidth (m : MeasureFn) (font : CtxFont) (texts : List String) (gap : ℚ) : ℚ :=
  (texts.map (m font)).sum + gap * ((texts.length - 1 : ℕ) : ℚ)

/-- src/utils/canvas.ts `processRender` (lines 143–481): fit the layout,
set the output canvas to `w × (h + bannerH)` (lines 223–227), choose the
text color, and issue the logo draw at the cursor position of lines 398–410
(logo left: `x = padding`) or lines 421–466 (logo right: `x` is the right
edge minus padding, the measured right text block and one separator gap).
`isFallback` is declared `false` at line 131 and never reassigned. -/
def processRender (m : MeasureFn) (sampler : Sampler) (imgW imgH : ℕ)
    (st : WatermarkSettings) (f0 : CtxFont) (logoFailed : Bool)
    (logo : Option LogoImg) : RenderOutput :=
  let c : MeasureCtx := ⟨imgW, st, f0⟩
  let v0 := nominalVals imgW imgH logoFailed logo
  let v := fitVals m c v0
  let textColor := renderTextColor sampler st (imgH : ℚ) v.bannerH
  let centerY := (imgH : ℚ) + v.bannerH / 2
  let leftL1 := lineElems st.elements .left 1
  let leftL2 := lineElems st.elements .left 2
  let rightL1 := lineElems st.elements .right 1
  let rightL2 := lineElems st.elements .right 2
  let hasL1 := leftL1.any fun e => e.text ≠ ""
  let hasL2 := leftL2.any fun e => e.text ≠ ""
  let hasR1 := rightL1.any fun e => e.text ≠ ""
  let hasR2 := rightL2.any fun e => e.text ≠ ""
  let r1 := measureLine m leftL1 v0.mainFontSize true f0
  let r2 := measureLine m leftL2 v0.subFontSize false r1.2
  let r3 := measureLine m rightL1 v0.mainFontSize true r2.2
  let r4 := measureLine m rightL2 v0.subFontSize false r3.2
  let fontAtGap :=
    if hasL2 then CtxFont.mk false v.subFontSize
    else if hasL1 then CtxFont.mk true v.mainFontSize
    else r4.2
  let gap := m fontAtGap SEPARATOR_CHAR * 2.5
  let wR1d := seqWidth m ⟨true, v.mainFontSize⟩ (textsOf rightL1) gap
  let wR2d := seqWidth m ⟨false, v.subFontSize⟩ (textsOf rightL2) gap
  let mtw1 : ℚ := if hasR1 ∧ wR1d > 0 then wR1d else 0
  let maxTextW := if hasR2 ∧ wR2d > mtw1 then wR2d else mtw1
  let logoX :=
    if st.logoPosition = .left then v.padding
    else (imgW : ℚ) - v.padding -
      (if hasR1 ∨ hasR2 then maxTextW + m ⟨true, v.mainFontSize⟩ SEPARATOR_CHAR * 2.5 else 0)
  let dir := if st.logoPosition = .left then Dir.ltr else Dir.rtl
  { width := (imgW : ℚ), height := (imgH : ℚ) + v.bannerH,
    logoDraw := (drawLogoSequence logoX dir logoFailed textColor false v.logoW v.logoRealH centerY).1 }

/-- src/utils/canvas.ts `generateWatermark` (lines 89–498): the async image
and logo loads are explicit outcomes; an image load error rejects
(line 492–495), a logo load error calls `processRender(true)` (line 484)
and still resolves. The 15-second watchdog is real time, outside the model. -/
def generateWatermark (m : MeasureFn) (sampler : Sampler) (img : Option (ℕ × ℕ))
    (st : WatermarkSettings) (f0 : CtxFont) (logoLoad : Except Unit LogoImg) :
    Except String RenderOutput :=
  match img with
  | none => .error "Image load error"
  | some (w, h) =>
      match logoLoad with
      | .ok li => .ok (processRender m sampler w h st f0 false (some li))
      | .error _ => .ok (processRender m sampler w h st f0 true none)

/-! ## Claim C2 — output dimensions -/

/-- C2: for every source image and every banner style (and all other
settings), the output canvas width equals the source width and the output
height is the source height plus the finalized (possibly down-scaled)
banner height. -/
theorem output_dimensions (m : MeasureFn) (sampler : Sampler) (w h : ℕ)
    (st : WatermarkSettings) (f0 : CtxFont) (lf : Bool) (lg : Option LogoImg) :
    (processRender m sampler w h st f0 lf lg).width = (w : ℚ) ∧
    (processRender m sampler w h st f0 lf lg).height =
      (h : ℚ) + (fitVals m ⟨w, st, f0⟩ (nominalVals w h lf lg)).bannerH :=
  ⟨rfl, rfl⟩

/-! ## Claim C7 — logo failure placeholder -/

/-- C7: when the logo asset fails to load, `generateWatermark` still
resolves (no error), and the logo is replaced by a solid rounded rectangle
in the text color filling the `logoW × logoRealH` box vertically centered in
the banner; no filter command (in particular no brightness-invert) is issued
for the placeholder. -/
theorem logo_failure_placeholder (m : MeasureFn) (sampler : Sampler) (w h : ℕ)
    (st : WatermarkSettings) (f0 : CtxFont) :
    ∃ out x rad,
      generateWatermark m sampler (some (w, h)) st f0 (Except.error ()) = Except.ok out ∧
      out.logoDraw =
        [DrawCmd.setFillStyle
          (renderTextColor sampler st (h : ℚ)
            (fitVals m ⟨w, st, f0⟩ (nominalVals w h true none)).bannerH),
         DrawCmd.fillRoundRect x
           ((h : ℚ) + (fitVals m ⟨w, st, f0⟩ (nominalVals w h true none)).bannerH / 2
             - (fitVals m ⟨w, st, f0⟩ (nominalVals w h true none)).logoRealH / 2)
           (fitVals m ⟨w, st, f0⟩ (nominalVals w h true none)).logoW
           (fitVals m ⟨w, st, f0⟩ (nominalVals w h true none)).logoRealH rad] ∧
      ∀ f, DrawCmd.setFilter f ∉ out.logoDraw := by
  refine ⟨processRender m sampler w h st f0 true none, _, _, rfl, rfl, ?_⟩
  intro f hf
  simp only [processRender, drawLogoSequence] at hf
  simp at hf

/-! ## Claim C5 — idempotence of the measurement + fit pass -/

/-- The width component of `measureLine`, which does not depend on the entry
font. -/
def lineWidth (m : MeasureFn) (items : List WatermarkElement) (fontSize : ℚ)
    (isBold : Bool) : ℚ :=
  if items.isEmpty then 0
  else
    let font : CtxFont := ⟨isBold, fontSize⟩
    let gap := m font SEPARATOR_CHAR * 2.5
    let texts := (items.filter fun i => i.text ≠ "").map fun i => i.text
    (texts.map (m font)).sum + gap * ((texts.length - 1 : ℕ) : ℚ)

theorem measureLine_fst (m : MeasureFn) (items : List WatermarkElement) (fontSize : ℚ)
    (isBold : Bool) (f : CtxFont) :
    (measureLine m items fontSize isBold f).1 = lineWidth m items fontSize isBold := by
  by_cases h : items.isEmpty <;> simp [measureLine, lineWidth, h]

theorem measureLine_snd (m : MeasureFn) (items : List WatermarkElement) (fontSize : ℚ)
    (isBold : Bool) (f : CtxFont) :
    (measureLine m items fontSize isBold f).2 =
      if items.isEmpty then f else ⟨isBold, fontSize⟩ := by
  by_cases h : items.isEmpty <;> simp [measureLine, h]

theorem lineWidth_empty (m : MeasureFn) {items : List WatermarkElement} (fontSize : ℚ)
    (isBold : Bool) (h : items.isEmpty = true) :
    lineWidth m items fontSize isBold = 0 := by
  simp [lineWidth, h]

/-- When text widths scale linearly with the font size at ratio `s`, so does
each measured line width. -/
theorem lineWidth_scale (m : MeasureFn) (s : ℚ)
    (hlin : ∀ (b : Bool) (sz : ℚ) (t : String), m ⟨b, sz * s⟩ t = s * m ⟨b, sz⟩ t)
    (items : List WatermarkElement) (fontSize : ℚ) (isBold : Bool) :
    lineWidth m items (fontSize * s) isBold = s * lineWidth m items fontSize isBold := by
  by_cases h : items.isEmpty
  · simp [lineWidth, h]
  · have hfun : (m ⟨isBold, fontSize * s⟩) = fun t => s * m ⟨isBold, fontSize⟩ t :=
      funext fun t => hlin isBold fontSize t
    simp only [lineWidth]
    rw [if_neg h, if_neg h]
    simp only [hfun, List.sum_map_mul_left]
    ring

set_option maxHeartbeats 2000000 in
/-- Scaling every sizing value by `s > 0` scales the measured total content
width by `s`, for any entry font of the re-measurement. -/
theorem totalContentWidth_scale (m : MeasureFn) (c : MeasureCtx) (f0' : CtxFont)
    (v : LayoutVals) (s : ℚ) (hs : 0 < s)
    (hlin : ∀ (b : Bool) (sz : ℚ) (t : String), m ⟨b, sz * s⟩ t = s * m ⟨b, sz⟩ t) :
    totalContentWidth m { c with f0 := f0' } (scaleVals s v) =
      s * totalContentWidth m c v := by
  have hmax : ∀ x y : ℚ, max (s * x) (s * y) = s * max x y := by
    intro x y
    rcases le_total x y with h | h
    · rw [max_eq_right h, max_eq_right (mul_le_mul_of_nonneg_left h hs.le)]
    · rw [max_eq_left h, max_eq_left (mul_le_mul_of_nonneg_left h hs.le)]
  have hpos : ∀ x : ℚ, 0 < s * x ↔ 0 < x := by
    intro x
    constructor
    · intro hx
      by_contra hc
      push_neg at hc
      nlinarith
    · intro hx
      exact mul_pos hs hx
  simp only [totalContentWidth, scaleVals, measureLine_fst, measureLine_snd]
  generalize lineElems c.settings.elements Side.left 1 = L1
  generalize lineElems c.settings.elements Side.left 2 = L2
  generalize lineElems c.settings.elements Side.right 1 = R1
  generalize lineElems c.settings.elements Side.right 2 = R2
  simp only [lineWidth_scale m s hlin, hmax, gt_iff_lt, hpos]
  cases hLP : c.settings.logoPosition <;>
    by_cases e1 : L1.isEmpty <;> by_cases e2 : L2.isEmpty <;>
    by_cases e3 : R1.isEmpty <;> by_cases e4 : R2.isEmpty <;>
    (try simp [e1, e2, e3, e4, hlin, lineWidth_empty]) <;>
    (try split_ifs) <;> (try ring)

/-- C5: if the measurement of content `v` overflows (`total > w`) and the
corrective scale `s = w / total` is not clamped (`0.6 ≤ s`), then — assuming
text widths scale linearly with font size — re-running the measurement on
the uniformly scaled sizing values (from any entry font) measures a total of
exactly `w`, so the fit pass applies no further scaling. -/
theorem fit_pass_idempotent (m : MeasureFn) (c : MeasureCtx) (v : LayoutVals)
    (f0' : CtxFont)
    (hlin : ∀ (b : Bool) (sz : ℚ) (t : String),
      m ⟨b, sz * ((c.w : ℚ) / totalContentWidth m c v)⟩ t =
        ((c.w : ℚ) / totalContentWidth m c v) * m ⟨b, sz⟩ t)
    (hover : totalContentWidth m c v > (c.w : ℚ))
    (hnoclamp : 0.6 ≤ (c.w : ℚ) / totalContentWidth m c v) :
    totalContentWidth m { c with f0 := f0' }
        (scaleVals ((c.w : ℚ) / totalContentWidth m c v) v) = (c.w : ℚ) ∧
    fitVals m { c with f0 := f0' }
        (scaleVals ((c.w : ℚ) / totalContentWidth m c v) v) =
      scaleVals ((c.w : ℚ) / totalContentWidth m c v) v := by
  have hs : 0 < (c.w : ℚ) / totalContentWidth m c v :=
    lt_of_lt_of_le (by norm_num) hnoclamp
  have hT : totalContentWidth m c v ≠ 0 :=
    ne_of_gt (lt_of_le_of_lt (by positivity) hover)
  have h1 := totalContentWidth_scale m c f0' v ((c.w : ℚ) / totalContentWidth m c v) hs hlin
  have h2 : ((c.w : ℚ) / totalContentWidth m c v) * totalContentWidth m c v = (c.w : ℚ) :=
    div_mul_cancel₀ _ hT
  refine ⟨h1.trans h2, ?_⟩
  unfold fitVals
  simp only [h1.trans h2]
  simp [lt_irrefl]

/-- A run of `n` copies of `'A'`, a stand-in for long slot text. -/
def sampleText (n : ℕ) : String := String.mk (List.replicate n 'A')

/-- Concrete slots for the C5 witness: one long text in the left first line,
every other slot hidden. -/
def elsC5 : SlotKey → WatermarkElement := fun k =>
  match k with
  | .model => ⟨sampleText 50, Side.left, 1, 0⟩
  | _ => ⟨"", Side.off, 2, 0⟩

/-- Concrete settings for the C5 witness. -/
def stC5 : WatermarkSettings :=
  { elements := elsC5, bannerStyle := .white, logoPosition := .left,
    useAdaptiveTextColor := false }

/-- Concrete text metrics for the C5 witness: width = fontSize × length. -/
def mC5 : MeasureFn := fun f t => f.size * (t.length : ℚ)

/-- Concrete measurement context for the C5 witness (image width 100). -/
def cC5 : MeasureCtx := ⟨100, stC5, ⟨false, 0⟩⟩

/-- Concrete sizing values for the C5 witness. -/
def vC5 : LayoutVals :=
  { bannerH := 10, mainFontSize := 2, subFontSize := 2, padding := 1,
    logoH := 3, logoW := 3, logoRealH := 3 }

set_option maxRecDepth 8000 in
/-- Witness for C5: the concrete content overflows (total 117 > width 100),
the scale `100/117` is above the 0.6 floor, and the re-measured total of the
scaled values is exactly the image width. -/
theorem fit_pass_idempotent_witness :
    totalContentWidth mC5 cC5 vC5 > (cC5.w : ℚ) ∧
    0.6 ≤ (cC5.w : ℚ) / totalContentWidth mC5 cC5 vC5 ∧
    totalContentWidth mC5 { cC5 with f0 := ⟨true, 7⟩ }
        (scaleVals ((cC5.w : ℚ) / totalContentWidth mC5 cC5 vC5) vC5) = (cC5.w : ℚ) := by
  have hlin : ∀ (b : Bool) (sz : ℚ) (t : String),
      mC5 ⟨b, sz * ((cC5.w : ℚ) / totalContentWidth mC5 cC5 vC5)⟩ t =
        ((cC5.w : ℚ) / totalContentWidth mC5 cC5 vC5) * mC5 ⟨b, sz⟩ t := by
    intro b sz t
    simp only [mC5]
    ring
  have hover : totalContentWidth mC5 cC5 vC5 > (cC5.w : ℚ) :=
    of_decide_eq_true (by with_unfolding_all rfl)
  have hnoclamp : 0.6 ≤ (cC5.w : ℚ) / totalContentWidth mC5 cC5 vC5 :=
    of_decide_eq_true (by with_unfolding_all rfl)
  exact ⟨hover, hnoclamp,
    (fit_pass_idempotent mC5 cC5 vC5 ⟨true, 7⟩ hlin hover hnoclamp).1⟩

/-! ## src/types.ts — slot drag-drop (`handleDrop`, lines 276–313) -/

/-- The drop target's group: `Object.entries(els)` filtered to the target
(side, line) without the dragged key, sorted by `order`
(types.ts lines 285–287). -/
def groupItemsOf (els : SlotKey → WatermarkElement) (ts : Side) (tl : ℕ)
    (dragged : SlotKey) : List SlotKey :=
  jsStableSort (fun a b => (els a).order ≤ (els b).order)
    (allKeys.filter fun k => (els k).side = ts ∧ (els k).line = tl ∧ k ≠ dragged)

/-- JS `arr.splice(n, 0, a)` as a pure insertion (an index past the end
appends, as in JS). -/
def spliceInsert (l : List α) (n : ℕ) (a : α) : List α :=
  l.take n ++ a :: l.drop n

/-- The `newGroup.forEach` reindexing loop (types.ts lines 298–305): assign
each listed key the target side and line and `order := index`, reading the
progressively updated state as JS does. -/
def assignGroup (ts : Side) (tl : ℕ) :
    (SlotKey → WatermarkElement) → ℕ → List SlotKey → (SlotKey → WatermarkElement)
  | els, _, [] => els
  | els, i, k :: ks =>
      assignGroup ts tl
        (fun q => if q = k then { els k with side := ts, line := tl, order := (i : ℤ) } else els q)
        (i + 1) ks

/-- The state update of `handleDrop` after the guards, for insertion index
`n` (types.ts lines 295–310): splice the dragged key into the sorted target
group at `n`, reindex the group, and re-assert the dragged slot's side and
line (lines 307–308). -/
def dropApply (els : SlotKey → WatermarkElement) (draggedId : SlotKey)
    (targetSide : Side) (targetLine : ℕ) (n : ℕ) : SlotKey → WatermarkElement :=
  let newGroup := spliceInsert (groupItemsOf els targetSide targetLine draggedId) n draggedId
  let els' := assignGroup targetSide targetLine els 0 newGroup
  fun q =>
    if q = draggedId then { els' draggedId with side := targetSide, line := targetLine }
    else els' q

/-- src/types.ts `handleDrop` (lines 276–313). `draggedId` is one of the
eight keys (the `!draggedId` null guard cannot fire once a drag started);
the `draggedId === targetId` guard returns the state unchanged; the
insertion index is the target's position in the sorted group
(`findIndex`, `-1` keeping the append-at-end default, lines 289–293). -/
def handleDrop (els : SlotKey → WatermarkElement) (draggedId : SlotKey)
    (targetSide : Side) (targetLine : ℕ) (targetId : Option SlotKey) :
    SlotKey → WatermarkElement :=
  if targetId = some draggedId then els
  else
    let groupItems := groupItemsOf els targetSide targetLine draggedId
    let insertIndex :=
      match targetId with
      | some t =>
          match groupItems.indexOf? t with
          | some i => i
          | none => groupItems.length
      | none => groupItems.length
    dropApply els draggedId targetSide targetLine insertIndex

/-- The claimed invariant: within every (side, line) group the slots' order
values are pairwise distinct. -/
abbrev ordersDistinct (els : SlotKey → WatermarkElement) : Prop :=
  ∀ k1 k2 : SlotKey, k1 ≠ k2 → (els k1).side = (els k2).side →
    (els k1).line = (els k2).line → (els k1).order ≠ (els k2).order

theorem allKeys_nodup : allKeys.Nodup := by decide

theorem mem_allKeys (k : SlotKey) : k ∈ allKeys := by cases k <;> decide

theorem mem_groupItemsOf (els : SlotKey → WatermarkElement) (ts : Side) (tl : ℕ)
    (d k : SlotKey) :
    k ∈ groupItemsOf els ts tl d ↔ ((els k).side = ts ∧ (els k).line = tl ∧ k ≠ d) := by
  unfold groupItemsOf
  rw [mem_jsStableSort]
  simp [List.mem_filter, mem_allKeys]

theorem groupItemsOf_nodup (els : SlotKey → WatermarkElement) (ts : Side) (tl : ℕ)
    (d : SlotKey) : (groupItemsOf els ts tl d).Nodup :=
  jsStableSort_nodup _ (allKeys_nodup.filter _)

theorem spliceInsert_perm (l : List α) (n : ℕ) (a : α) :
    List.Perm (spliceInsert l n a) (a :: l) := by
  unfold spliceInsert
  calc List.Perm (l.take n ++ a :: l.drop n) (a :: (l.take n ++ l.drop n)) :=
        List.perm_middle
    _ = (a :: l) := by rw [List.take_append_drop]

theorem mem_spliceInsert (l : List α) (n : ℕ) (a k : α) :
    k ∈ spliceInsert l n a ↔ k = a ∨ k ∈ l := by
  rw [(spliceInsert_perm l n a).mem_iff, List.mem_cons]

theorem spliceInsert_nodup {l : List α} (n : ℕ) {a : α} (h : l.Nodup) (ha : a ∉ l) :
    (spliceInsert l n a).Nodup :=
  (spliceInsert_perm l n a).nodup_iff.mpr (List.nodup_cons.mpr ⟨ha, h⟩)

/-- Pointwise effect of the reindexing loop on a duplicate-free group: each
listed key gets the target side/line and `order := i + index`, everything
else is untouched. -/
theorem assignGroup_apply (ts : Side) (tl : ℕ) :
    ∀ (G : List SlotKey), G.Nodup → ∀ (els : SlotKey → WatermarkElement) (i : ℕ) (q : SlotKey),
      assignGroup ts tl els i G q =
        if q ∈ G then
          { els q with side := ts, line := tl, order := ((i + G.indexOf q : ℕ) : ℤ) }
        else els q := by
  intro G
  induction G with
  | nil =>
      intro _ els i q
      simp [assignGroup]
  | cons g gs ih =>
      intro hnd els i q
      have hgnotin : g ∉ gs := (List.nodup_cons.mp hnd).1
      have hndgs : gs.Nodup := (List.nodup_cons.mp hnd).2
      simp only [assignGroup]
      rw [ih hndgs _ (i + 1) q]
      by_cases hq : q = g
      · subst hq
        simp [hgnotin, List.indexOf_cons_self]
      · by_cases hmem : q ∈ gs
        · have hidx : (g :: gs).indexOf q = gs.indexOf q + 1 :=
            List.indexOf_cons_ne gs (fun h => hq h.symm)
          simp only [hq, if_false, List.mem_cons, hmem, or_true, if_true, hidx]
          have : i + 1 + gs.indexOf q = i + (gs.indexOf q + 1) := by omega
          simp [this]
        · have hnmem : q ∉ g :: gs := by simp [hq, hmem]
          simp [hq, hmem, hnmem]

/-- Properties of the post-guard update `dropApply` at any insertion index:
order distinctness is preserved in every group and every slot keeps its
text. -/
theorem dropApply_props (els : SlotKey → WatermarkElement) (draggedId : SlotKey)
    (ts : Side) (tl : ℕ) (n : ℕ) (hdist : ordersDistinct els) :
    ordersDistinct (dropApply els draggedId ts tl n) ∧
    ∀ k, (dropApply els draggedId ts tl n k).text = (els k).text := by
  have hGInodup := groupItemsOf_nodup els ts tl draggedId
  have hdGI : draggedId ∉ groupItemsOf els ts tl draggedId := fun hm =>
    ((mem_groupItemsOf els ts tl draggedId draggedId).mp hm).2.2 rfl
  set NG := spliceInsert (groupItemsOf els ts tl draggedId) n draggedId with hNGdef
  have hNGnodup : NG.Nodup := spliceInsert_nodup n hGInodup hdGI
  have hdNG : draggedId ∈ NG :=
    (mem_spliceInsert _ n draggedId draggedId).mpr (Or.inl rfl)
  have hmemNG : ∀ k, (els k).side = ts → (els k).line = tl → k ∈ NG := by
    intro k hside hline
    by_cases hk : k = draggedId
    · exact hk ▸ hdNG
    · exact (mem_spliceInsert _ n draggedId k).mpr
        (Or.inr ((mem_groupItemsOf els ts tl draggedId k).mpr ⟨hside, hline, hk⟩))
  have happ : ∀ q, dropApply els draggedId ts tl n q =
      if q ∈ NG then
        { els q with side := ts, line := tl, order := ((NG.indexOf q : ℕ) : ℤ) }
      else els q := by
    intro q
    simp only [dropApply, ← hNGdef]
    rw [assignGroup_apply ts tl NG hNGnodup els 0 q,
      assignGroup_apply ts tl NG hNGnodup els 0 draggedId]
    by_cases hq : q = draggedId
    · subst hq
      simp [hdNG]
    · simp [hq]
  constructor
  · intro k1 k2 hne hside hline
    rw [happ k1, happ k2] at hside hline ⊢
    by_cases h1 : k1 ∈ NG <;> by_cases h2 : k2 ∈ NG
    · simp only [if_pos h1, if_pos h2]
      intro horder
      have hcast : ((NG.indexOf k1 : ℕ) : ℤ) = ((NG.indexOf k2 : ℕ) : ℤ) := horder
      exact hne ((List.indexOf_inj h1 h2).mp (by exact_mod_cast hcast))
    · simp only [if_pos h1, if_neg h2] at hside hline
      exact absurd (hmemNG k2 hside.symm hline.symm) h2
    · simp only [if_neg h1, if_pos h2] at hside hline
      exact absurd (hmemNG k1 hside hline) h1
    · simp only [if_neg h1, if_neg h2] at hside hline ⊢
      exact hdist k1 k2 hne hside hline
  · intro k
    rw [happ k]
    by_cases hk : k ∈ NG <;> simp [hk]

/-- C9: when every (side, line) group has pairwise-distinct order values,
relocating one slot via `handleDrop` preserves that invariant, and no slot
is created or destroyed — every one of the eight slots survives with its
text unchanged. -/
theorem handleDrop_preserves (els : SlotKey → WatermarkElement) (draggedId : SlotKey)
    (ts : Side) (tl : ℕ) (targetId : Option SlotKey)
    (hdist : ordersDistinct els) :
    ordersDistinct (handleDrop els draggedId ts tl targetId) ∧
    ∀ k, (handleDrop els draggedId ts tl targetId k).text = (els k).text := by
  by_cases hguard : targetId = some draggedId
  · have h : handleDrop els draggedId ts tl targetId = els := by
      simp [handleDrop, hguard]
    rw [h]
    exact ⟨hdist, fun k => rfl⟩
  · rcases targetId with _ | t
    · have h : handleDrop els draggedId ts tl none =
          dropApply els draggedId ts tl (groupItemsOf els ts tl draggedId).length := by
        simp [handleDrop]
      rw [h]
      exact dropApply_props els draggedId ts tl _ hdist
    · rcases hidx : (groupItemsOf els ts tl draggedId).indexOf? t with _ | i
      · have h : handleDrop els draggedId ts tl (some t) =
            dropApply els draggedId ts tl (groupItemsOf els ts tl draggedId).length := by
          simp only [handleDrop, if_neg hguard, hidx]
        rw [h]
        exact dropApply_props els draggedId ts tl _ hdist
      · have h : handleDrop els draggedId ts tl (some t) =
            dropApply els draggedId ts tl i := by
          simp only [handleDrop, if_neg hguard, hidx]
        rw [h]
        exact dropApply_props els draggedId ts tl _ hdist

/-- The initial slot layout of the app (src/types.ts lines 96–105). -/
def appInitElements : SlotKey → WatermarkElement := fun k =>
  match k with
  | .model => ⟨"", .left, 1, 0⟩
  | .lens => ⟨"", .left, 1, 1⟩
  | .focalLength => ⟨"", .right, 1, 0⟩
  | .fNumber => ⟨"", .right, 1, 1⟩
  | .iso => ⟨"", .right, 1, 2⟩
  | .exposureTime => ⟨"", .right, 1, 3⟩
  | .date => ⟨"", .right, 2, 0⟩
  | .gps => ⟨"", .off, 2, 1⟩

/-- Witness for C9: dropping the gps slot onto the date slot's cell in the
initial layout keeps order values distinct in every group and preserves
every slot's text. -/
theorem handleDrop_preserves_witness :
    ordersDistinct (handleDrop appInitElements .gps .right 2 (some .date)) ∧
    ∀ k, (handleDrop appInitElements .gps .right 2 (some .date) k).text =
      (appInitElements k).text :=
  handleDrop_preserves appInitElements .gps .right 2 (some .date) (by decide)

end LensMark
